import Mathlib

/-!
Shallow embedding of the fixed-point power formula in
src/solidity/python/Formula/Power (Python reference implementation).

Python integers are modelled as Nat (they are arbitrary precision and all
values in this program are non-negative).  A Python exception -- a failed
assert, a ZeroDivisionError, or a negative shift count -- is modelled as
Option.none.  Python floor division "/" on non-negative ints is Nat
division; "a << b" is "a <<< b"; "a >> b" is "a >>> b"; "t |= s" is
"t ||| s".  The while loop of fixedLog2 is modelled by structural
recursion on a fuel argument that is always large enough (the loop halves
its argument each iteration, so an initial fuel of x covers every run);
the bounded for loops are modelled by structural recursion on the number
of remaining iterations.
-/

def ONE : Nat := 1

def TWO : Nat := 2

def MAX_FIXED_EXP_32 : Nat := 0x386bfdba29

/-- Python floor division on non-negative integers: raises (none) on a
zero divisor, otherwise Nat division. -/
def pyDiv (a b : Nat) : Option Nat := if b = 0 then none else some (a / b)

/-- The loop of floorLog2: for each shift amount s in the list, if n is at
least ONE << s, shift n right by s and or s into the accumulator t.
Returns the final (n, t). -/
def floorLog2Go : Nat → Nat → List Nat → Nat × Nat
  | n, t, [] => (n, t)
  | n, t, s :: rest =>
    if ONE <<< s ≤ n then floorLog2Go (n >>> s) (t ||| s) rest
    else floorLog2Go n t rest

/-- floorLog2(n): binary probing over the shift amounts
1 << (8-1-k) for k in range(8), i.e. [128, 64, ..., 1]. -/
def floorLog2 (n : Nat) : Nat :=
  (floorLog2Go n 0 [128, 64, 32, 16, 8, 4, 2, 1]).2

/-- safeMul(x, y): asserts x * y < (1 << 256) and returns x * y. -/
def safeMul (x y : Nat) : Option Nat :=
  if x * y < 1 <<< 256 then some (x * y) else none

/-- The 33 coefficients folded into res by fixedExpUnsafe, in source
order: 34!, 34!/1!, 34!/2!, ..., 34!/33! (each truncated). -/
def fixedExpCoeffs : List Nat :=
  [0xde1bc4d19efcac82445da75b00000000, 0x6f0de268cf7e5641222ed3ad80000000,
   0x2504a0cd9a7f7215b60f9be480000000, 0x9412833669fdc856d83e6f920000000,
   0x1d9d4d714865f4de2b3fafea0000000, 0x4ef8ce836bba8cfb1dff2a70000000,
   0xb481d807d1aa66d04490610000000, 0x16903b00fa354cda08920c2000000,
   0x281cdaac677b334ab9e732000000, 0x402e2aad725eb8778fd85000000,
   0x5d5a6c9f31fe2396a2af000000, 0x7c7890d442a82f73839400000,
   0x9931ed54034526b58e400000, 0xaf147cf24ce150cf7e00000,
   0xbac08546b867cdaa200000, 0xbac08546b867cdaa20000,
   0xafc441338061b2820000, 0x9c3cabbc0056d790000,
   0x839168328705c30000, 0x694120286c049c000,
   0x50319e98b3d2c000, 0x3a52a1e36b82000,
   0x289286e0fce000, 0x1b0c59eb53400,
   0x114f95b55400, 0xaa7210d200,
   0x650139600, 0x39b78e80,
   0x1fd8080, 0x10fbc0,
   0x8c40, 0x462, 0x22]

/-- fixedExpUnsafe(x, precision): res starts at 34! << precision; then for
each coefficient c in order, res += xi * c and xi = (xi * x) >> precision
(xi starts at x; the xi update after the last coefficient is dead code in
the source and is discarded here with the fold state).  The result is
res / 34!.  This function is total: the Python body contains no assert and
no fallible operation. -/
def fixedExpUnsafe (x precision : Nat) : Nat :=
  let r := fixedExpCoeffs.foldl
    (fun s c => ((s.1 * x) >>> precision, s.2 + s.1 * c))
    (x, 0xde1bc4d19efcac82445da75b00000000 <<< precision)
  r.2 / 0xde1bc4d19efcac82445da75b00000000

/-- The loop of fixedExp: "for p in range(32, precision, 2):
maxExp = (maxExp * 0xeb5ec5975959c565) >> (64-2)".  The counter k starts
at 32 and advances by 2 while k < precision; the fuel (first argument) is
always initialised to precision, which exceeds the number of iterations
(precision - 32) / 2 of every run. -/
def fixedExpMaxGo (precision : Nat) : Nat → Nat → Nat → Nat
  | 0, _, maxExp => maxExp
  | fuel+1, k, maxExp =>
    if k < precision then
      fixedExpMaxGo precision fuel (k + 2) ((maxExp * 0xeb5ec5975959c565) >>> (64 - 2))
    else maxExp

/-- fixedExp(x, precision): scale MAX_FIXED_EXP_32 up once per two units
of precision above 32, assert x <= maxExp, delegate to the unchecked
evaluator. -/
def fixedExp (x precision : Nat) : Option Nat :=
  let maxExp := fixedExpMaxGo precision precision 32 MAX_FIXED_EXP_32
  if x ≤ maxExp then some ( fixedExpUnsafe x precision) else none

/-- The while loop of fixedLog2: "while x >= fixedTwo: x >>= 1;
hi += fixedOne".  Returns the final (x, hi).  Fuel is always initialised
to x, which bounds the number of halvings of every run. -/
def fixedLog2While (fixedOne fixedTwo : Nat) : Nat → Nat → Nat → Nat × Nat
  | 0, x, hi => (x, hi)
  | fuel+1, x, hi =>
    if fixedTwo ≤ x then fixedLog2While fixedOne fixedTwo fuel (x >>> 1) (hi + fixedOne)
    else (x, hi)

/-- The for loop of fixedLog2: "for i in range(precision): x = (x*x) /
fixedOne; if x >= fixedTwo: x >>= 1; hi += ONE << (precision-1-i)".
The last argument counts the remaining iterations; with rem+1 iterations
remaining the current index is i = precision-1-rem... precision-1-i = rem,
so the branch adds ONE <<< rem. -/
def fixedLog2For (fixedOne fixedTwo : Nat) : Nat → Nat → Nat → Nat
  | _, hi, 0 => hi
  | x, hi, rem+1 =>
    let xs := (x * x) / fixedOne
    if fixedTwo ≤ xs then fixedLog2For fixedOne fixedTwo (xs >>> 1) (hi + (ONE <<< rem)) rem
    else fixedLog2For fixedOne fixedTwo xs hi rem

/-- fixedLog2(x, precision): asserts x >= fixedOne, then runs the halving
while loop followed by precision squaring iterations. -/
def fixedLog2 (x precision : Nat) : Option Nat :=
  let fixedOne := ONE <<< precision
  let fixedTwo := TWO <<< precision
  if fixedOne ≤ x then
    let r := fixedLog2While fixedOne fixedTwo x x 0
    some (fixedLog2For fixedOne fixedTwo r.1 r.2 precision)
  else none

/-- fixedLoge(x, precision): asserts x >= ONE << precision, then converts
fixedLog2 with the 56-bit scaled ln(2) constant. -/
def fixedLoge (x precision : Nat) : Option Nat :=
  if ONE <<< precision ≤ x then
    (fixedLog2 x precision).map fun log2 => (log2 * 0xb17217f7d1cf78) >>> 56
  else none

/-- ln(numerator, denominator, precision): the four asserts of the source
in order, then fixedLoge((numerator << precision) / denominator,
precision).  A precision above 256 would make the Python shift count
256 - precision negative, which raises; the Nat model returns none there.
The division by denominator is exact Python floor division (denominator
is nonzero past the second assert). -/
def ln (numerator denominator precision : Nat) : Option Nat :=
  if denominator ≤ numerator then
    if denominator ≠ 0 ∧ numerator ≠ 0 then
      if precision ≤ 256 then
        let MAX_VAL := ONE <<< (256 - precision)
        if numerator < MAX_VAL then
          if denominator < MAX_VAL then
            fixedLoge ((numerator <<< precision) / denominator) precision
          else none
        else none
      else none
    else none
  else none

/-- lnUpperBound32(baseN, baseD): asserts baseN > baseD; three manual
brackets against scaled e, e^2, e^3, then
(floorLog2((baseN - 1) / baseD) + 1) * 0xb17217f8.  The final division is
Python floor division and raises on baseD = 0 (modelled by pyDiv). -/
def lnUpperBound32 (baseN baseD : Nat) : Option Nat :=
  if baseD < baseN then
    let scaledBaseN := baseN * 100000
    if scaledBaseN ≤ baseD * 271828 then some (1 <<< 32)
    else if scaledBaseN ≤ baseD * 738905 then some (2 <<< 32)
    else if scaledBaseN ≤ baseD * 2008553 then some (3 <<< 32)
    else (pyDiv (baseN - 1) baseD).map fun q => (floorLog2 q + 1) * 0xb17217f8
  else none

/-- The loop of calculateBestPrecision over precision in range(0, 32, 2).
On break at precision p the Python code returns 32 when p = 0 and
p + 32 - 2 otherwise; when the loop is exhausted the for-else returns
64 - 2.  The division (maxVal << precision) / expD is evaluated every
iteration and raises on expD = 0 (modelled by pyDiv). -/
def calcBPGo (maxVal expD : Nat) : Nat → List Nat → Option Nat
  | _, [] => some (64 - 2)
  | maxExp, precision :: rest =>
    match pyDiv (maxVal <<< precision) expD with
    | none => none
    | some q =>
      if maxExp < q then some (if precision = 0 then 32 else precision + 32 - 2)
      else calcBPGo maxVal expD ((maxExp * 0xeb5ec5975959c565) >>> (64 - 2)) rest

/-- calculateBestPrecision(baseN, baseD, expN, expD). -/
def calculateBestPrecision (baseN baseD expN expD : Nat) : Option Nat :=
  (lnUpperBound32 baseN baseD).bind fun lub =>
    calcBPGo (lub * expN) expD MAX_FIXED_EXP_32
      [0, 2, 4, 6, 8, 10, 12, 14, 16, 18, 20, 22, 24, 26, 28, 30]

/-- The descending shift list probed by floorLog2, abstractly:
probeList j = [2^(j-1), ..., 2, 1].  floorLog2 uses probeList 8. -/
def probeList : Nat → List Nat
  | 0 => []
  | j+1 => 2^j :: probeList j

/-- power(baseN, baseD, expN, expD, precision) =
fixedExp(safeMul(ln(baseN, baseD, precision), expN) / expD, precision).
The plain division by expD raises on expD = 0 (modelled by pyDiv). -/
def power (baseN baseD expN expD precision : Nat) : Option Nat :=
  (ln baseN baseD precision).bind fun logbase =>
    (safeMul logbase expN).bind fun p =>
      (pyDiv p expD).bind fun scaled => fixedExp scaled precision

/-! ## Elementary facts about the embedded operations -/

theorem pyDiv_pos {a b : Nat} (hb : b ≠ 0) : pyDiv a b = some (a / b) := by
  simp [pyDiv, hb]

/-- Claim C3: safeMul(x, y) fails exactly when the mathematical product
x * y is at least 2^256, and otherwise returns exactly x * y. -/
theorem safeMul_exact (x y : Nat) :
    (safeMul x y = none ↔ 2^256 ≤ x * y) ∧ (∀ z, safeMul x y = some z → z = x * y) := by
  have h : (1 <<< 256 : Nat) = 2^256 := Nat.one_shiftLeft 256
  unfold safeMul
  rw [h]
  by_cases hlt : x * y < 2^256
  · rw [if_pos hlt]
    constructor
    · exact ⟨fun hc => by simp at hc, fun hge => absurd hlt (by omega)⟩
    · intro z hz
      exact (Option.some_inj.mp hz).symm
  · rw [if_neg hlt]
    exact ⟨⟨fun _ => by omega, fun _ => rfl⟩, fun z hz => by simp at hz⟩

/-- Witness for C3: the overflow direction at 2^128 * 2^128 = 2^256. -/
theorem safeMul_exact_witness : safeMul (2^128) (2^128) = none :=
  (safeMul_exact (2^128) (2^128)).1.mpr (by norm_num)

theorem fixedExpMaxGo_at32 : fixedExpMaxGo 32 32 32 MAX_FIXED_EXP_32 = MAX_FIXED_EXP_32 := by
  decide

/-- Claim C2: fixedExp(x, 32) fails for every x above MAX_FIXED_EXP_32
(the Python assert raises, the spec calls this OverflowError), and
succeeds at x = MAX_FIXED_EXP_32. -/
theorem fixedExp_bound32 (x : Nat) :
    (MAX_FIXED_EXP_32 < x → fixedExp x 32 = none) ∧ (fixedExp MAX_FIXED_EXP_32 32).isSome := by
  constructor
  · intro hx
    simp [fixedExp, fixedExpMaxGo_at32, Nat.not_le.mpr hx]
  · simp [fixedExp, fixedExpMaxGo_at32]

/-- Witness for C2, at x = MAX_FIXED_EXP_32 + 1. -/
theorem fixedExp_bound32_witness :
    fixedExp (MAX_FIXED_EXP_32 + 1) 32 = none ∧ (fixedExp MAX_FIXED_EXP_32 32).isSome :=
  ⟨(fixedExp_bound32 (MAX_FIXED_EXP_32 + 1)).1 (by decide), (fixedExp_bound32 0).2⟩

/-- Claim C7: ln fails (Python assert raises, the spec calls this
DomainError) whenever denominator > numerator, or numerator = 0, or
denominator = 0. -/
theorem ln_domain_failures (numerator denominator precision : Nat)
    (h : numerator < denominator ∨ numerator = 0 ∨ denominator = 0) :
    ln numerator denominator precision = none := by
  unfold ln
  rcases h with h | h | h
  · rw [if_neg (by omega)]
  · by_cases hd : denominator ≤ numerator
    · rw [if_pos hd, if_neg (by omega)]
    · rw [if_neg hd]
  · rw [if_pos (by omega), if_neg (by omega)]

/-- Witness for C7, at numerator 1, denominator 2. -/
theorem ln_domain_failures_witness : ln 1 2 32 = none :=
  ln_domain_failures 1 2 32 (Or.inl (by decide))

/-- Counterexample for C9: fixedExpUnsafe is a total Python function (its
body has no assert and no fallible operation), so it does not fail at
x = 242329958954, precision 32: it returns this value. -/
theorem fixedExpUnsafe_total_past_bound :
    fixedExpUnsafe 242329958954 32 = 7115225351404790684574188917459 := by decide

/-- Claim C9 as amended: the documented input bound of fixedExpUnsafe at
precision 32 is enforced by the checked wrapper fixedExp, which succeeds
for every x <= 242329958953 (= MAX_FIXED_EXP_32) and fails at
x = 242329958954. -/
theorem fixedExp_enforces_unsafe_bound (x : Nat) (h : x ≤ 242329958953) :
    (fixedExp x 32).isSome ∧ fixedExp 242329958954 32 = none := by
  have hmax : fixedExpMaxGo 32 32 32 MAX_FIXED_EXP_32 = 242329958953 := by decide
  constructor
  · have hx : x ≤ fixedExpMaxGo 32 32 32 MAX_FIXED_EXP_32 := by rw [hmax]; exact h
    simp [fixedExp, hx]
  · have hx : ¬ (242329958954 ≤ fixedExpMaxGo 32 32 32 MAX_FIXED_EXP_32) := by rw [hmax]; omega
    simp [fixedExp, hx]

/-- Witness for the amended C9, at x = 7. -/
theorem fixedExp_enforces_unsafe_bound_witness :
    (fixedExp 7 32).isSome ∧ fixedExp 242329958954 32 = none :=
  fixedExp_enforces_unsafe_bound 7 (by decide)

/-- Counterexample for C4: at baseN = 1 > 0 = baseD and expD = 1 the last
branch of lnUpperBound32 divides by baseD = 0 and Python raises
ZeroDivisionError, so calculateBestPrecision returns no value at all. -/
theorem calculateBestPrecision_zero_baseD :
    calculateBestPrecision 1 0 0 1 = none := by decide

/-- Counterexample for C8: at k = 0 (which is below 255) the claimed
identity floorLog2(2^k + 1) = k fails: floorLog2(2) = 1, not 0. -/
theorem floorLog2_two_pow_zero_add_one :
    floorLog2 (2^0 + 1) = 1 ∧ (0:Nat) < 255 := by decide

/-! ## Claim C1: power with base 1/1 -/

theorem fixedLog2For_at_fixedOne (F T : Nat) (hF : 0 < F) (hFT : ¬ T ≤ F) :
    ∀ rem hi, fixedLog2For F T F hi rem = hi := by
  intro rem
  induction rem with
  | zero => intro hi; rfl
  | succ n ih =>
    intro hi
    have hx : F * F / F = F := Nat.mul_div_cancel_left F hF
    simp only [fixedLog2For, hx]
    rw [if_neg hFT]
    exact ih hi

theorem fixedLog2_pow_self (p : Nat) : fixedLog2 (2^p) p = some 0 := by
  have hone : (ONE <<< p) = 2^p := by simp [ONE, Nat.one_shiftLeft]
  have htwo : (TWO <<< p) = 2^(p+1) := by
    simp [TWO, Nat.shiftLeft_eq]
    ring
  have hF : 0 < 2^p := Nat.two_pow_pos p
  have hFT : ¬ (2^(p+1) ≤ 2^p) := by
    have h2 : (2:Nat)^(p+1) = 2 * 2^p := by ring
    omega
  unfold fixedLog2
  rw [hone, htwo, if_pos (le_refl (2^p))]
  have hwhile : fixedLog2While (2^p) (2^(p+1)) (2^p) (2^p) 0 = (2^p, 0) := by
    obtain ⟨m, hm⟩ : ∃ m, 2^p = m + 1 := ⟨2^p - 1, by omega⟩
    conv_lhs => rw [hm]
    simp only [fixedLog2While]
    rw [if_neg (by omega)]
    rw [← hm]
  rw [hwhile]
  show some (fixedLog2For (2^p) (2^(p+1)) (2^p) 0 p) = some 0
  rw [fixedLog2For_at_fixedOne (2^p) (2^(p+1)) hF hFT p 0]

theorem fixedLoge_pow_self (p : Nat) : fixedLoge (2^p) p = some 0 := by
  unfold fixedLoge
  rw [if_pos (by simp [ONE, Nat.one_shiftLeft])]
  rw [fixedLog2_pow_self]
  rfl

theorem ln_one_one (precision : Nat) (hp : precision ≤ 255) : ln 1 1 precision = some 0 := by
  unfold ln
  have hMV : (1:Nat) < ONE <<< (256 - precision) := by
    simp only [ONE, Nat.one_shiftLeft]
    have h1 : (2:Nat)^1 ≤ 2^(256 - precision) := Nat.pow_le_pow_right (by norm_num) (by omega)
    omega
  rw [if_pos (le_refl 1), if_pos ⟨one_ne_zero, one_ne_zero⟩, if_pos (by omega)]
  rw [if_pos hMV, if_pos hMV]
  rw [Nat.div_one, Nat.one_shiftLeft]
  exact fixedLoge_pow_self precision

theorem fixedExpUnsafe_zero (p : Nat) : fixedExpUnsafe 0 p = 2^p := by
  have hfold : ∀ (cs : List Nat) (res : Nat),
      cs.foldl (fun s c => ((s.1 * 0) >>> p, s.2 + s.1 * c)) ((0:Nat), res) = (0, res) := by
    intro cs
    induction cs with
    | nil => intro res; rfl
    | cons c cs ih =>
      intro res
      rw [List.foldl_cons]
      have h1 : (((0:Nat), res).1 * 0) >>> p = 0 := by simp [Nat.zero_shiftRight]
      have h2 : ((0:Nat), res).2 + ((0:Nat), res).1 * c = res := by simp
      rw [h1, h2]
      exact ih res
  simp only [ fixedExpUnsafe]
  rw [hfold]
  rw [Nat.shiftLeft_eq]
  exact Nat.mul_div_cancel_left _ (by norm_num)

/-- Claim C1: for every expN, every expD >= 1 and every precision <= 62,
power(1, 1, expN, expD, precision) = 1 << precision. -/
theorem power_base_one (expN expD precision : Nat) (hD : 1 ≤ expD) (hp : precision ≤ 62) :
    power 1 1 expN expD precision = some (1 <<< precision) := by
  have hln : ln 1 1 precision = some 0 := ln_one_one precision (by omega)
  have hmul : safeMul 0 expN = some 0 := by
    unfold safeMul
    rw [Nat.zero_mul, if_pos]
    rw [Nat.one_shiftLeft]
    exact Nat.two_pow_pos 256
  have hdiv : pyDiv 0 expD = some 0 := by
    rw [pyDiv_pos (by omega), Nat.zero_div]
  have hexp : fixedExp 0 precision = some (1 <<< precision) := by
    unfold fixedExp
    rw [if_pos (Nat.zero_le _)]
    rw [ fixedExpUnsafe_zero, Nat.one_shiftLeft]
  unfold power
  rw [hln]
  simp only [Option.some_bind]
  rw [hmul]
  simp only [Option.some_bind]
  rw [hdiv]
  simp only [Option.some_bind]
  exact hexp

/-- Witness for C1: power(1,1,1,1,32) = 0x100000000. -/
theorem power_base_one_witness : power 1 1 1 1 32 = some 0x100000000 := by
  have h := power_base_one 1 1 32 (by norm_num) (by norm_num)
  rw [Nat.one_shiftLeft] at h
  norm_num at h
  exact h

/-! ## Claim C10: validated ln calls never trip the inner assertions -/

theorem fixedLog2_isSome {x p : Nat} (h : ONE <<< p ≤ x) : (fixedLog2 x p).isSome := by
  simp only [fixedLog2]
  rw [if_pos h]
  rfl

theorem fixedLoge_isSome {x p : Nat} (h : ONE <<< p ≤ x) : (fixedLoge x p).isSome := by
  simp only [fixedLoge]
  rw [if_pos h]
  obtain ⟨v, hv⟩ := Option.isSome_iff_exists.mp (fixedLog2_isSome h)
  rw [hv]
  rfl

/-- Claim C10: whenever the validation inside ln passes, the value
x = (numerator << precision) / denominator handed to fixedLoge is at
least 2^precision, so the domain assertions inside fixedLoge and
fixedLog2 cannot fire and ln returns a value. -/
theorem ln_internal_asserts_never_fire (numerator denominator precision : Nat)
    (h1 : denominator ≤ numerator) (h2 : numerator ≠ 0) (h3 : denominator ≠ 0)
    (h4 : numerator < 2^(256 - precision)) (h5 : denominator < 2^(256 - precision)) :
    2^precision ≤ (numerator <<< precision) / denominator ∧
    (ln numerator denominator precision).isSome := by
  have hp : precision ≤ 256 := by
    by_contra hgt
    have hz : 256 - precision = 0 := by omega
    rw [hz] at h4
    norm_num at h4
    omega
  have hx : 2^precision ≤ (numerator <<< precision) / denominator := by
    rw [Nat.shiftLeft_eq]
    rw [Nat.le_div_iff_mul_le (by omega : 0 < denominator)]
    calc 2^precision * denominator = denominator * 2^precision := by ring
    _ ≤ numerator * 2^precision := Nat.mul_le_mul_right _ h1
  refine ⟨hx, ?_⟩
  have hone : (ONE <<< (256 - precision)) = 2^(256 - precision) := by
    simp [ONE, Nat.one_shiftLeft]
  have h4x : numerator < ONE <<< (256 - precision) := by rw [hone]; exact h4
  have h5x : denominator < ONE <<< (256 - precision) := by rw [hone]; exact h5
  simp only [ln]
  rw [if_pos h1, if_pos ⟨h3, h2⟩, if_pos hp, if_pos h4x, if_pos h5x]
  exact fixedLoge_isSome (by simpa [ONE, Nat.one_shiftLeft] using hx)

/-- Witness for C10, at numerator 4, denominator 2, precision 32. -/
theorem ln_internal_asserts_never_fire_witness :
    2^32 ≤ ((4:Nat) <<< 32) / 2 ∧ (ln 4 2 32).isSome :=
  ln_internal_asserts_never_fire 4 2 32 (by norm_num) (by norm_num) (by norm_num)
    (by norm_num) (by norm_num)

/-! ## floorLog2: binary probing is an exact floor of log2 below 2^256 -/

theorem lor_two_pow_of_lt {j a : Nat} (h : a < 2^j) : 2^j ||| a = 2^j + a := by
  apply Nat.eq_of_testBit_eq
  intro b
  rcases Nat.lt_trichotomy b j with hb | hb | hb
  · rw [Nat.testBit_lor]
    rw [Nat.testBit_two_pow_of_ne (by omega)]
    rw [Nat.testBit_two_pow_add_gt hb]
    simp
  · subst hb
    rw [Nat.testBit_lor, Nat.testBit_two_pow_self, Nat.testBit_two_pow_add_eq]
    rw [Nat.testBit_eq_false_of_lt h]
    simp
  · rw [Nat.testBit_lor]
    rw [Nat.testBit_two_pow_of_ne (by omega)]
    rw [Nat.testBit_eq_false_of_lt
      (Nat.lt_of_lt_of_le h (Nat.pow_le_pow_right (by norm_num) (by omega)))]
    rw [Nat.testBit_eq_false_of_lt]
    · simp
    · calc 2^j + a < 2^j + 2^j := by omega
      _ = 2^(j+1) := by ring
      _ ≤ 2^b := Nat.pow_le_pow_right (by norm_num) (by omega)

theorem floorLog2Go_lor : ∀ (ps : List Nat) (n t : Nat),
    floorLog2Go n t ps = ((floorLog2Go n 0 ps).1, t ||| (floorLog2Go n 0 ps).2) := by
  intro ps
  induction ps with
  | nil => intro n t; simp [floorLog2Go, Nat.or_zero]
  | cons s rest ih =>
    intro n t
    by_cases hs : ONE <<< s ≤ n
    · simp only [floorLog2Go, if_pos hs]
      rw [ih (n >>> s) (t ||| s), ih (n >>> s) (0 ||| s)]
      rw [Nat.zero_or, Nat.lor_assoc]
    · simp only [floorLog2Go, if_neg hs]
      exact ih n t

theorem floorLog2Go_probe : ∀ (j : Nat) (n : Nat), 1 ≤ n → n < 2^(2^j) →
    2^((floorLog2Go n 0 (probeList j)).2) ≤ n ∧
    n < 2^((floorLog2Go n 0 (probeList j)).2 + 1) ∧
    (floorLog2Go n 0 (probeList j)).2 < 2^j := by
  intro j
  induction j with
  | zero =>
    intro n h1 h2
    simp only [probeList, floorLog2Go]
    norm_num at h2 ⊢
    omega
  | succ j ih =>
    intro n h1 h2
    have hone : (ONE <<< 2^j) = 2^(2^j) := by simp [ONE, Nat.one_shiftLeft]
    by_cases hs : ONE <<< 2^j ≤ n
    · have hm : 0 < 2^(2^j) := Nat.two_pow_pos _
      have hshift : n >>> 2^j = n / 2^(2^j) := Nat.shiftRight_eq_div_pow n (2^j)
      have hn1 : 1 ≤ n / 2^(2^j) := by
        rw [Nat.le_div_iff_mul_le hm]
        rw [hone] at hs
        omega
      have hn2 : n / 2^(2^j) < 2^(2^j) := by
        rw [Nat.div_lt_iff_lt_mul hm]
        calc n < 2^(2^(j+1)) := h2
        _ = 2^(2^j) * 2^(2^j) := by rw [← pow_add]; congr 1; ring
      have hrec := ih (n / 2^(2^j)) hn1 hn2
      set T := (floorLog2Go (n / 2^(2^j)) 0 (probeList j)).2 with hT
      simp only [probeList, floorLog2Go, if_pos hs]
      rw [floorLog2Go_lor (probeList j) (n >>> 2^j) (0 ||| 2^j)]
      rw [Nat.zero_or, hshift]
      rw [lor_two_pow_of_lt hrec.2.2]
      have hlow : 2^(2^j + T) ≤ n := by
        calc 2^(2^j + T) = 2^(2^j) * 2^T := by rw [pow_add]
        _ ≤ 2^(2^j) * (n / 2^(2^j)) := Nat.mul_le_mul_left _ hrec.1
        _ ≤ n := by
            have := Nat.div_mul_le_self n (2^(2^j))
            calc 2^(2^j) * (n / 2^(2^j)) = n / 2^(2^j) * 2^(2^j) := by ring
            _ ≤ n := Nat.div_mul_le_self n (2^(2^j))
      have hhigh : n < 2^(2^j + T + 1) := by
        have hq := Nat.div_add_mod n (2^(2^j))
        have hr := Nat.mod_lt n hm
        have hx : n < 2^(2^j) * (n / 2^(2^j) + 1) := by
          have hd : 2^(2^j) * (n / 2^(2^j) + 1) = 2^(2^j) * (n / 2^(2^j)) + 2^(2^j) := by ring
          omega
        calc n < 2^(2^j) * (n / 2^(2^j) + 1) := hx
        _ ≤ 2^(2^j) * 2^(T+1) := Nat.mul_le_mul_left _ (by omega)
        _ = 2^(2^j + T + 1) := by rw [← pow_add]; ring_nf
      refine ⟨hlow, hhigh, ?_⟩
      have : 2^j + 2^j = 2^(j+1) := by ring
      omega
    · have hn2 : n < 2^(2^j) := by rw [hone] at hs; omega
      have hrec := ih n h1 hn2
      simp only [probeList, floorLog2Go, if_neg hs]
      have : (2:Nat)^j ≤ 2^(j+1) := Nat.pow_le_pow_right (by norm_num) (by omega)
      exact ⟨hrec.1, hrec.2.1, by omega⟩

theorem floorLog2_bounds {n : Nat} (h1 : 1 ≤ n) (h2 : n < 2^256) :
    2^(floorLog2 n) ≤ n ∧ n < 2^(floorLog2 n + 1) := by
  have hpl : probeList 8 = [128, 64, 32, 16, 8, 4, 2, 1] := by decide
  have h2x : n < 2^(2^8) := by norm_num; norm_num at h2; exact h2
  have h := floorLog2Go_probe 8 n h1 h2x
  unfold floorLog2
  rw [← hpl]
  exact ⟨h.1, h.2.1⟩

/-- Claim C8 as amended: floorLog2(2^k) = k for every k in [0,255], and
floorLog2(2^k + 1) = k for every k with 1 <= k < 255 (at k = 0 the value
is 1, see the counterexample). -/
theorem floorLog2_pow_identities (k : Nat) (hk : k ≤ 255) :
    floorLog2 (2^k) = k ∧ (1 ≤ k → k < 255 → floorLog2 (2^k + 1) = k) := by
  constructor
  · have hb := @floorLog2_bounds (2^k) Nat.one_le_two_pow
      (Nat.pow_lt_pow_right (by norm_num) (by omega))
    obtain ⟨hl, hr⟩ := hb
    have h1 : floorLog2 (2^k) ≤ k := by
      have := (Nat.pow_le_pow_iff_right (by norm_num : 1 < 2)).mp hl
      omega
    have h2 : k < floorLog2 (2^k) + 1 := by
      have := (Nat.pow_lt_pow_iff_right (by norm_num : 1 < 2)).mp hr
      omega
    omega
  · intro hk1 hk255
    have h255 : (2:Nat)^k < 2^255 := Nat.pow_lt_pow_right (by norm_num) (by omega)
    have h256 : (2:Nat)^255 + 2^255 = 2^256 := by ring
    have hp255 : (1:Nat) ≤ 2^255 := Nat.one_le_two_pow
    have hlt256 : 2^k + 1 < 2^256 := by omega
    have hb := @floorLog2_bounds (2^k + 1) (Nat.le_add_left 1 (2^k)) hlt256
    obtain ⟨hl, hr⟩ := hb
    set t := floorLog2 (2^k + 1) with ht
    have hkk : (2:Nat)^k + 2^k = 2^(k+1) := by ring
    have h2k : (2:Nat)^1 ≤ 2^k := Nat.pow_le_pow_right (by norm_num) (by omega)
    have hup : 2^t ≤ 2^k + 1 := hl
    have htk : t ≤ k := by
      by_contra hgt
      have : (2:Nat)^(k+1) ≤ 2^t := Nat.pow_le_pow_right (by norm_num) (by omega)
      norm_num at h2k
      omega
    have hkt : k ≤ t := by
      have hx : (2:Nat)^k < 2^(t+1) := by omega
      have := (Nat.pow_lt_pow_iff_right (by norm_num : 1 < 2)).mp hx
      omega
    omega

/-- Witness for the amended C8, at k = 5. -/
theorem floorLog2_pow_identities_witness :
    floorLog2 (2^5) = 5 ∧ floorLog2 (2^5 + 1) = 5 :=
  ⟨(floorLog2_pow_identities 5 (by norm_num)).1,
   (floorLog2_pow_identities 5 (by norm_num)).2 (by norm_num) (by norm_num)⟩

/-! ## Claim C4: calculateBestPrecision lands in the even set [32, 62] -/

theorem lnUpperBound32_isSome {baseN baseD : Nat} (h1 : 1 ≤ baseD) (h2 : baseD < baseN) :
    (lnUpperBound32 baseN baseD).isSome := by
  simp only [lnUpperBound32, if_pos h2]
  by_cases h3 : baseN * 100000 ≤ baseD * 271828
  · rw [if_pos h3]; rfl
  · rw [if_neg h3]
    by_cases h4 : baseN * 100000 ≤ baseD * 738905
    · rw [if_pos h4]; rfl
    · rw [if_neg h4]
      by_cases h5 : baseN * 100000 ≤ baseD * 2008553
      · rw [if_pos h5]; rfl
      · rw [if_neg h5]
        rw [pyDiv_pos (by omega)]
        rfl

theorem calcBPGo_range (maxVal expD : Nat) (hD : expD ≠ 0) :
    ∀ (ps : List Nat), (∀ q ∈ ps, q % 2 = 0 ∧ q ≤ 30) → ∀ maxExp,
      ∃ r, calcBPGo maxVal expD maxExp ps = some r ∧ 32 ≤ r ∧ r ≤ 62 ∧ r % 2 = 0 := by
  intro ps
  induction ps with
  | nil =>
    intro _ maxExp
    exact ⟨62, rfl, by norm_num⟩
  | cons q rest ih =>
    intro hmem maxExp
    have hq : q % 2 = 0 ∧ q ≤ 30 := hmem q (List.mem_cons_self q rest)
    have hrest : ∀ p ∈ rest, p % 2 = 0 ∧ p ≤ 30 := fun p hp => hmem p (List.mem_cons_of_mem q hp)
    simp only [calcBPGo, pyDiv_pos hD]
    by_cases hbr : maxExp < (maxVal <<< q) / expD
    · rw [if_pos hbr]
      by_cases hq0 : q = 0
      · exact ⟨32, by rw [if_pos hq0], by norm_num⟩
      · exact ⟨q + 32 - 2, by rw [if_neg hq0], by omega⟩
    · rw [if_neg hbr]
      exact ih hrest ((maxExp * 0xeb5ec5975959c565) >>> (64 - 2))

/-- Claim C4 as amended: for baseN > baseD >= 1 and expD >= 1 (any expN),
calculateBestPrecision returns a value, and that value is an even integer
between 32 and 62 (for baseD = 0 the code divides by zero instead, see the
counterexample). -/
theorem calculateBestPrecision_range (baseN baseD expN expD : Nat)
    (hD : 1 ≤ baseD) (hN : baseD < baseN) (hE : 1 ≤ expD) :
    (calculateBestPrecision baseN baseD expN expD).isSome ∧
    32 ≤ (calculateBestPrecision baseN baseD expN expD).getD 0 ∧
    (calculateBestPrecision baseN baseD expN expD).getD 0 ≤ 62 ∧
    (calculateBestPrecision baseN baseD expN expD).getD 0 % 2 = 0 := by
  obtain ⟨lub, hlub⟩ := Option.isSome_iff_exists.mp (lnUpperBound32_isSome hD hN)
  obtain ⟨r, hr, h32, h62, h2⟩ := calcBPGo_range (lub * expN) expD (by omega)
    [0, 2, 4, 6, 8, 10, 12, 14, 16, 18, 20, 22, 24, 26, 28, 30] (by decide) MAX_FIXED_EXP_32
  unfold calculateBestPrecision
  rw [hlub]
  simp only [Option.some_bind]
  rw [hr]
  exact ⟨rfl, h32, h62, h2⟩

/-- Witness for the amended C4, at baseN 3, baseD 1, expN 5, expD 7. -/
theorem calculateBestPrecision_range_witness :
    (calculateBestPrecision 3 1 5 7).isSome ∧
    32 ≤ (calculateBestPrecision 3 1 5 7).getD 0 ∧
    (calculateBestPrecision 3 1 5 7).getD 0 ≤ 62 ∧
    (calculateBestPrecision 3 1 5 7).getD 0 % 2 = 0 :=
  calculateBestPrecision_range 3 1 5 7 (by norm_num) (by norm_num) (by norm_num)

/-! ## Claim C6: lnUpperBound32 bounds ln(baseN/baseD) * 2^32 from above -/

theorem exp_ge_two_at_scaled_const : (2:ℝ) ≤ Real.exp (2977044472 / 4294967296) := by
  have h := Real.sum_le_exp_of_nonneg
    (show (0:ℝ) ≤ 2977044472 / 4294967296 by norm_num) 13
  refine le_trans ?_ h
  rw [Finset.sum_range_succ, Finset.sum_range_succ, Finset.sum_range_succ,
    Finset.sum_range_succ, Finset.sum_range_succ, Finset.sum_range_succ,
    Finset.sum_range_succ, Finset.sum_range_succ, Finset.sum_range_succ,
    Finset.sum_range_succ, Finset.sum_range_succ, Finset.sum_range_succ,
    Finset.sum_range_succ, Finset.sum_range_zero]
  norm_num [Nat.factorial]

theorem log_two_scaled_le : Real.log 2 * 2^32 ≤ 2977044472 := by
  have hc : Real.log 2 ≤ 2977044472 / 4294967296 := by
    rw [Real.log_le_iff_le_exp (by norm_num)]
    exact exp_ge_two_at_scaled_const
  have h32 : (2:ℝ)^32 = 4294967296 := by norm_num
  rw [h32]
  linarith

theorem exp_one_sq_lower :
    (2.7182818283 : ℝ) * 2.7182818283 ≤ Real.exp 1 * Real.exp 1 := by
  nlinarith [Real.exp_one_gt_d9]

theorem exp_one_cube_lower :
    (2.7182818283 : ℝ) * 2.7182818283 * 2.7182818283 ≤
      Real.exp 1 * Real.exp 1 * Real.exp 1 := by
  nlinarith [Real.exp_one_gt_d9]

/-- Counterexample for C6: the claim quantifies over every baseN > baseD.
At baseN = 1, baseD = 0 the final branch divides by zero (Python
ZeroDivisionError), and at baseN = 2^300, baseD = 1 floorLog2 saturates at
255, so the returned value 256 * 0xb17217f8 is strictly below
ln(2^300) * 2^32. -/
theorem lnUpperBound32_counterexample :
    lnUpperBound32 1 0 = none ∧
    lnUpperBound32 (2^300) 1 = some 762123384832 ∧
    (762123384832 : ℝ) < Real.log (((2^300 : ℕ) : ℝ) / ((1:ℕ):ℝ)) * 2^32 := by
  refine ⟨by decide, by decide, ?_⟩
  have hc : (((2^300 : ℕ) : ℝ) / ((1:ℕ):ℝ)) = (2:ℝ)^300 := by push_cast; norm_num
  rw [hc]
  have hl : Real.log ((2:ℝ)^300) = 300 * Real.log 2 := by
    rw [Real.log_pow]
    norm_num
  rw [hl]
  have h32 : (2:ℝ)^32 = 4294967296 := by norm_num
  rw [h32]
  nlinarith [Real.log_two_gt_d9]

/-- Claim C6 as amended: for baseN > baseD >= 1 with baseN <= 2^256,
lnUpperBound32(baseN, baseD) returns a value that is at least
ln(baseN/baseD) * 2^32 (where ln is the exact real natural logarithm). -/
theorem lnUpperBound32_upper (baseN baseD : Nat) (hD : 1 ≤ baseD) (hN : baseD < baseN)
    (hB : baseN ≤ 2^256) :
    (lnUpperBound32 baseN baseD).isSome ∧
    Real.log ((baseN:ℝ) / (baseD:ℝ)) * 2^32 ≤ (((lnUpperBound32 baseN baseD).getD 0 : ℕ) : ℝ) := by
  refine ⟨lnUpperBound32_isSome hD hN, ?_⟩
  have hBN : (0:ℝ) < (baseN:ℝ) := by exact_mod_cast Nat.pos_of_ne_zero (by omega)
  have hBD : (0:ℝ) < (baseD:ℝ) := by exact_mod_cast Nat.pos_of_ne_zero (by omega)
  have hr0 : (0:ℝ) < (baseN:ℝ) / (baseD:ℝ) := div_pos hBN hBD
  have h32 : ((2:ℝ))^32 = 4294967296 := by norm_num
  by_cases h3 : baseN * 100000 ≤ baseD * 271828
  · have hval : lnUpperBound32 baseN baseD = some (1 <<< 32) := by
      simp only [lnUpperBound32, if_pos hN]
      rw [if_pos h3]
    rw [hval]
    simp only [Option.getD_some]
    have hcast : ((1 <<< 32 : ℕ) : ℝ) = 2^32 := by
      rw [Nat.one_shiftLeft]
      push_cast
      norm_num
    rw [hcast]
    have hle : (baseN:ℝ) / (baseD:ℝ) ≤ 271828 / 100000 := by
      rw [div_le_div_iff hBD (by norm_num)]
      have hcast3 : ((baseN * 100000 : ℕ) : ℝ) ≤ ((baseD * 271828 : ℕ) : ℝ) :=
        Nat.cast_le.mpr h3
      push_cast at hcast3
      linarith
    have hlog : Real.log ((baseN:ℝ) / (baseD:ℝ)) ≤ 1 := by
      rw [Real.log_le_iff_le_exp hr0]
      calc (baseN:ℝ) / (baseD:ℝ) ≤ 271828 / 100000 := hle
      _ ≤ 2.7182818283 := by norm_num
      _ ≤ Real.exp 1 := Real.exp_one_gt_d9.le
    have h2nn : (0:ℝ) ≤ 2^32 := by positivity
    have hmul := mul_le_mul_of_nonneg_right hlog h2nn
    linarith
  · by_cases h4 : baseN * 100000 ≤ baseD * 738905
    · have hval : lnUpperBound32 baseN baseD = some (2 <<< 32) := by
        simp only [lnUpperBound32, if_pos hN]
        rw [if_neg h3, if_pos h4]
      rw [hval]
      simp only [Option.getD_some]
      have hcast : ((2 <<< 32 : ℕ) : ℝ) = 2 * 2^32 := by
        rw [Nat.shiftLeft_eq]
        push_cast
        norm_num
      rw [hcast]
      have hle : (baseN:ℝ) / (baseD:ℝ) ≤ 738905 / 100000 := by
        rw [div_le_div_iff hBD (by norm_num)]
        have hcast4 : ((baseN * 100000 : ℕ) : ℝ) ≤ ((baseD * 738905 : ℕ) : ℝ) :=
          Nat.cast_le.mpr h4
        push_cast at hcast4
        linarith
      have hexp2 : Real.exp 2 = Real.exp 1 * Real.exp 1 := by
        rw [← Real.exp_add]
        norm_num
      have hlog : Real.log ((baseN:ℝ) / (baseD:ℝ)) ≤ 2 := by
        rw [Real.log_le_iff_le_exp hr0]
        calc (baseN:ℝ) / (baseD:ℝ) ≤ 738905 / 100000 := hle
        _ ≤ 2.7182818283 * 2.7182818283 := by norm_num
        _ ≤ Real.exp 1 * Real.exp 1 := exp_one_sq_lower
        _ = Real.exp 2 := hexp2.symm
      have h2nn : (0:ℝ) ≤ 2^32 := by positivity
      have hmul := mul_le_mul_of_nonneg_right hlog h2nn
      linarith
    · by_cases h5 : baseN * 100000 ≤ baseD * 2008553
      · have hval : lnUpperBound32 baseN baseD = some (3 <<< 32) := by
          simp only [lnUpperBound32, if_pos hN]
          rw [if_neg h3, if_neg h4, if_pos h5]
        rw [hval]
        simp only [Option.getD_some]
        have hcast : ((3 <<< 32 : ℕ) : ℝ) = 3 * 2^32 := by
          rw [Nat.shiftLeft_eq]
          push_cast
          norm_num
        rw [hcast]
        have hle : (baseN:ℝ) / (baseD:ℝ) ≤ 2008553 / 100000 := by
          rw [div_le_div_iff hBD (by norm_num)]
          have hcast5 : ((baseN * 100000 : ℕ) : ℝ) ≤ ((baseD * 2008553 : ℕ) : ℝ) :=
            Nat.cast_le.mpr h5
          push_cast at hcast5
          linarith
        have hexp3 : Real.exp 3 = Real.exp 1 * Real.exp 1 * Real.exp 1 := by
          rw [← Real.exp_add, ← Real.exp_add]
          norm_num
        have hlog : Real.log ((baseN:ℝ) / (baseD:ℝ)) ≤ 3 := by
          rw [Real.log_le_iff_le_exp hr0]
          calc (baseN:ℝ) / (baseD:ℝ) ≤ 2008553 / 100000 := hle
          _ ≤ 2.7182818283 * 2.7182818283 * 2.7182818283 := by norm_num
          _ ≤ Real.exp 1 * Real.exp 1 * Real.exp 1 := exp_one_cube_lower
          _ = Real.exp 3 := hexp3.symm
        have h2nn : (0:ℝ) ≤ 2^32 := by positivity
        have hmul := mul_le_mul_of_nonneg_right hlog h2nn
        linarith
      · set f := (baseN - 1) / baseD with hf
        have hval : lnUpperBound32 baseN baseD = some ((floorLog2 f + 1) * 0xb17217f8) := by
          simp only [lnUpperBound32, if_pos hN]
          rw [if_neg h3, if_neg h4, if_neg h5]
          rw [pyDiv_pos (by omega)]
          rfl
        rw [hval]
        simp only [Option.getD_some]
        have hf1 : 1 ≤ f := by
          rw [hf, Nat.le_div_iff_mul_le (by omega : 0 < baseD)]
          omega
        have hf2 : f < 2^256 := by
          have hle : f ≤ baseN - 1 := Nat.div_le_self _ _
          have hp : (1:Nat) ≤ 2^256 := Nat.one_le_two_pow
          omega
        obtain ⟨hkl, hkr⟩ := floorLog2_bounds hf1 hf2
        set k := floorLog2 f with hk
        have hNk : baseN ≤ baseD * 2^(k+1) := by
          have hq : baseD * f + (baseN - 1) % baseD = baseN - 1 := by
            rw [hf]
            exact Nat.div_add_mod _ _
          have hrq : (baseN - 1) % baseD < baseD := Nat.mod_lt _ (by omega)
          have hup : baseN - 1 < baseD * (f + 1) := by
            have hd : baseD * (f + 1) = baseD * f + baseD := by ring
            omega
          have hfk : f + 1 ≤ 2^(k+1) := hkr
          calc baseN ≤ baseD * (f + 1) := by omega
          _ ≤ baseD * 2^(k+1) := Nat.mul_le_mul_left _ hfk
        have hrle : (baseN:ℝ) / (baseD:ℝ) ≤ (2:ℝ)^(k+1) := by
          rw [div_le_iff hBD]
          have hcastk : ((baseN : ℕ) : ℝ) ≤ ((baseD * 2^(k+1) : ℕ) : ℝ) := Nat.cast_le.mpr hNk
          push_cast at hcastk
          linarith
        have hlog : Real.log ((baseN:ℝ) / (baseD:ℝ)) ≤ (k+1) * Real.log 2 := by
          calc Real.log ((baseN:ℝ) / (baseD:ℝ)) ≤ Real.log ((2:ℝ)^(k+1)) :=
            (Real.log_le_log_iff hr0 (by positivity)).mpr hrle
          _ = (k+1) * Real.log 2 := by
              rw [Real.log_pow]
              push_cast
              ring
        have hcast : (((k + 1) * 0xb17217f8 : ℕ) : ℝ) = (k+1) * 2977044472 := by
          push_cast
          norm_num
        rw [hcast]
        have hlog2pos : 0 ≤ Real.log 2 := Real.log_nonneg (by norm_num)
        have hscale : ((k:ℝ)+1) * (Real.log 2 * 2^32) ≤ ((k:ℝ)+1) * 2977044472 := by
          have hk0 : (0:ℝ) ≤ (k:ℝ) + 1 := by positivity
          exact mul_le_mul_of_nonneg_left log_two_scaled_le hk0
        have h2nn : (0:ℝ) ≤ 2^32 := by positivity
        have hstep := mul_le_mul_of_nonneg_right hlog h2nn
        calc Real.log ((baseN:ℝ) / (baseD:ℝ)) * 2^32 ≤ ((k:ℝ)+1) * Real.log 2 * 2^32 := hstep
        _ = ((k:ℝ)+1) * (Real.log 2 * 2^32) := by ring
        _ ≤ ((k:ℝ)+1) * 2977044472 := hscale

/-- Witness for the amended C6, at baseN 3, baseD 1:
lnUpperBound32(3,1) = 2 << 32 and ln(3) * 2^32 is below it. -/
theorem lnUpperBound32_upper_witness :
    (lnUpperBound32 3 1).isSome ∧
    Real.log (((3:ℕ):ℝ) / ((1:ℕ):ℝ)) * 2^32 ≤ (((lnUpperBound32 3 1).getD 0 : ℕ) : ℝ) :=
  lnUpperBound32_upper 3 1 (by norm_num) (by norm_num) (by norm_num)

/-! ## Claim C5: fixedLog2 never overestimates the true binary logarithm -/

theorem fixedLog2While_spec (p : Nat) : ∀ (fuel x hi : Nat), 2^p ≤ x → x ≤ fuel →
    2^p ≤ (fixedLog2While (2^p) (2^(p+1)) fuel x hi).1 ∧
    (fixedLog2While (2^p) (2^(p+1)) fuel x hi).1 < 2^(p+1) ∧
    2^((fixedLog2While (2^p) (2^(p+1)) fuel x hi).2) *
      ((fixedLog2While (2^p) (2^(p+1)) fuel x hi).1) ^ (2^p) ≤ 2^hi * x ^ (2^p) := by
  intro fuel
  induction fuel with
  | zero =>
    intro x hi hx hf
    exfalso
    have := Nat.two_pow_pos p
    omega
  | succ fuel ih =>
    intro x hi hx hf
    by_cases hge : 2^(p+1) ≤ x
    · have hp2 : (2:Nat)^(p+1) = 2^p * 2 := by rw [pow_succ]
      have hx2 : 2^p ≤ x / 2 := by
        rw [Nat.le_div_iff_mul_le (by norm_num : 0 < 2)]
        omega
      have hx0 : 0 < x := lt_of_lt_of_le (Nat.two_pow_pos p) hx
      have hxlt : x / 2 < x := Nat.div_lt_self hx0 (by norm_num)
      have hxf : x / 2 ≤ fuel := by omega
      have hsh : x >>> 1 = x / 2 := by
        rw [Nat.shiftRight_eq_div_pow]
      have hrec := ih (x / 2) (hi + 2^p) hx2 hxf
      simp only [fixedLog2While, if_pos hge, hsh]
      refine ⟨hrec.1, hrec.2.1, ?_⟩
      refine le_trans hrec.2.2 ?_
      have hle2 : 2 * (x / 2) ≤ x := by
        have := Nat.div_mul_le_self x 2
        omega
      calc 2^(hi + 2^p) * (x/2)^(2^p) = 2^hi * (2^(2^p) * (x/2)^(2^p)) := by
            rw [pow_add]
            ring
      _ = 2^hi * (2 * (x/2))^(2^p) := by rw [mul_pow]
      _ ≤ 2^hi * x^(2^p) := Nat.mul_le_mul_left _ (Nat.pow_le_pow_left hle2 _)
    · simp only [fixedLog2While, if_neg hge]
      exact ⟨hx, by omega, le_refl _⟩

theorem fixedLog2For_le (p : Nat) : ∀ (rem x hi : Nat), 2^p ≤ x →
    2^(fixedLog2For (2^p) (2^(p+1)) x hi rem) * ((2:Nat)^p)^(2^rem) ≤ 2^hi * x^(2^rem) := by
  intro rem
  induction rem with
  | zero =>
    intro x hi hx
    simp only [fixedLog2For, pow_zero, pow_one]
    exact Nat.mul_le_mul_left _ hx
  | succ rem ih =>
    intro x hi hx
    have hp0 : (0:Nat) < 2^p := Nat.two_pow_pos p
    have hkey : (x * x / 2^p) * 2^p ≤ x * x := Nat.div_mul_le_self _ _
    have hxsge : 2^p ≤ x * x / 2^p := by
      rw [Nat.le_div_iff_mul_le hp0]
      exact Nat.mul_le_mul hx hx
    have hAA : ((2:Nat)^p)^(2^(rem+1)) = (2^p)^(2^rem) * (2^p)^(2^rem) := by
      rw [pow_succ, Nat.mul_two, pow_add]
    have hxx : x^(2^(rem+1)) = (x*x)^(2^rem) := by
      rw [pow_succ, Nat.mul_two, pow_add, mul_pow]
    simp only [fixedLog2For, ONE, Nat.one_shiftLeft]
    by_cases hbr : 2^(p+1) ≤ x * x / 2^p
    · rw [if_pos hbr]
      have hsh : (x * x / 2^p) >>> 1 = x * x / 2^p / 2 := by
        rw [Nat.shiftRight_eq_div_pow]
      rw [hsh]
      have hge2 : 2^p ≤ x * x / 2^p / 2 := by
        rw [Nat.le_div_iff_mul_le (by norm_num : 0 < 2)]
        have hp2 : (2:Nat)^(p+1) = 2^p * 2 := by rw [pow_succ]
        omega
      have hrec := ih (x * x / 2^p / 2) (hi + 2^rem) hge2
      set R := fixedLog2For (2^p) (2^(p+1)) (x * x / 2^p / 2) (hi + 2^rem) rem with hR
      rw [hAA, hxx]
      have h2xs : 2 * (x * x / 2^p / 2) ≤ x * x / 2^p := by
        have := Nat.div_mul_le_self (x * x / 2^p) 2
        omega
      calc 2^R * ((2^p)^(2^rem) * (2^p)^(2^rem))
          = (2^R * (2^p)^(2^rem)) * (2^p)^(2^rem) := by ring
      _ ≤ (2^(hi + 2^rem) * (x * x / 2^p / 2)^(2^rem)) * (2^p)^(2^rem) :=
          Nat.mul_le_mul_right _ hrec
      _ = (2^hi * (2 * (x * x / 2^p / 2))^(2^rem)) * (2^p)^(2^rem) := by
          rw [pow_add, mul_pow]
          ring
      _ ≤ (2^hi * (x * x / 2^p)^(2^rem)) * (2^p)^(2^rem) :=
          Nat.mul_le_mul_right _ (Nat.mul_le_mul_left _ (Nat.pow_le_pow_left h2xs _))
      _ = 2^hi * ((x * x / 2^p) * 2^p)^(2^rem) := by
          rw [mul_pow]
          ring
      _ ≤ 2^hi * (x*x)^(2^rem) := Nat.mul_le_mul_left _ (Nat.pow_le_pow_left hkey _)
    · rw [if_neg hbr]
      have hrec := ih (x * x / 2^p) hi hxsge
      set R := fixedLog2For (2^p) (2^(p+1)) (x * x / 2^p) hi rem with hR
      rw [hAA, hxx]
      calc 2^R * ((2^p)^(2^rem) * (2^p)^(2^rem))
          = (2^R * (2^p)^(2^rem)) * (2^p)^(2^rem) := by ring
      _ ≤ (2^hi * (x * x / 2^p)^(2^rem)) * (2^p)^(2^rem) := Nat.mul_le_mul_right _ hrec
      _ = 2^hi * ((x * x / 2^p) * 2^p)^(2^rem) := by
          rw [mul_pow]
          ring
      _ ≤ 2^hi * (x*x)^(2^rem) := Nat.mul_le_mul_left _ (Nat.pow_le_pow_left hkey _)

theorem pow_ineq_logb (r p x0 : Nat) (hx : 1 ≤ x0)
    (h : 2^r * ((2:Nat)^p)^(2^p) ≤ x0^(2^p)) :
    (r:ℝ) ≤ Real.logb 2 ((x0:ℝ) / 2^p) * 2^p := by
  have hx0R : (0:ℝ) < (x0:ℝ) := by exact_mod_cast Nat.pos_of_ne_zero (by omega)
  have hR : (2:ℝ)^r * ((2:ℝ)^p)^((2:Nat)^p) ≤ (x0:ℝ)^((2:Nat)^p) := by
    have hcast : ((2^r * ((2:Nat)^p)^(2^p) : ℕ) : ℝ) ≤ ((x0^(2^p) : ℕ) : ℝ) :=
      Nat.cast_le.mpr h
    push_cast at hcast
    exact hcast
  have hlhs : Real.logb 2 ((2:ℝ)^r * ((2:ℝ)^p)^((2:Nat)^p)) =
      (r:ℝ) + (p:ℝ) * ((2:Nat)^p : ℕ) := by
    rw [Real.logb_mul (by positivity) (by positivity)]
    rw [Real.logb_pow, Real.logb_pow, Real.logb_pow]
    rw [Real.logb_self_eq_one (by norm_num)]
    ring
  have hrhs : Real.logb 2 ((x0:ℝ)^((2:Nat)^p)) = ((2:Nat)^p : ℕ) * Real.logb 2 (x0:ℝ) :=
    Real.logb_pow 2 (x0:ℝ) ((2:Nat)^p)
  have hmono := (Real.logb_le_logb (by norm_num : (1:ℝ) < 2)
    (by positivity) (pow_pos hx0R _)).mpr hR
  rw [hlhs, hrhs] at hmono
  have hdiv : Real.logb 2 ((x0:ℝ) / 2^p) = Real.logb 2 (x0:ℝ) - (p:ℝ) := by
    rw [Real.logb_div (by positivity) (by positivity)]
    rw [Real.logb_pow]
    rw [Real.logb_self_eq_one (by norm_num)]
    ring
  rw [hdiv]
  push_cast at hmono
  nlinarith [hmono, Nat.two_pow_pos p, pow_pos (show (0:ℝ) < 2 by norm_num) p]

/-- Claim C5: for every x >= 2^precision, the value returned by
fixedLog2(x, precision) never exceeds log2(x / 2^precision) * 2^precision,
where log2 is the exact real binary logarithm. -/
theorem fixedLog2_underestimates (x precision hi : Nat) (hx : 2^precision ≤ x)
    (hsome : fixedLog2 x precision = some hi) :
    (hi:ℝ) ≤ Real.logb 2 ((x:ℝ) / 2^precision) * 2^precision := by
  have hone : (ONE <<< precision) = 2^precision := by simp [ONE, Nat.one_shiftLeft]
  have htwo : (TWO <<< precision) = 2^(precision+1) := by
    simp [TWO, Nat.shiftLeft_eq]
    ring
  simp only [fixedLog2, hone, htwo] at hsome
  rw [if_pos hx] at hsome
  have hhi := Option.some_inj.mp hsome
  have hW := fixedLog2While_spec precision x x 0 hx (le_refl x)
  have hF := fixedLog2For_le precision precision
      ((fixedLog2While (2^precision) (2^(precision+1)) x x 0).1)
      ((fixedLog2While (2^precision) (2^(precision+1)) x x 0).2) hW.1
  rw [hhi] at hF
  have hchain : 2^hi * ((2:Nat)^precision)^(2^precision) ≤ x^(2^precision) := by
    refine le_trans hF ?_
    have hend := hW.2.2
    simpa using hend
  have hx1 : 1 ≤ x := le_trans Nat.one_le_two_pow hx
  exact pow_ineq_logb hi precision x hx1 hchain

/-- Witness for C5, at x = 2^33, precision 32: fixedLog2 returns exactly
2^32 and log2(2^33 / 2^32) * 2^32 = 2^32. -/
theorem fixedLog2_underestimates_witness :
    ((4294967296:ℕ):ℝ) ≤ Real.logb 2 (((2^33:ℕ):ℝ) / 2^32) * 2^32 :=
  fixedLog2_underestimates (2^33) 32 4294967296 (by norm_num) (by decide)
